import Mathlib

/-!
# Verification of the Sig_Test_Highlighter core

Shallow embedding of the highlight-coordinate resolution and
column-preserving export engine of the repository
(`data_processor.py` and the export block of `app.py`), together with
proofs settling the specification claims.

Conventions:
* Python strings are Lean `String`s; `NaN` / missing values are `Option`.
* Python numbers (int/float) are modelled as `ℚ`; `float(...)` string
  parsing is modelled by an executable decimal/scientific parser
  (`parsePyFloat`), and Python `round(x, n)` by rational
  round-half-to-even at `n` decimal places (`pyRound`).
* Spreadsheet coordinates are `ℤ × ℤ` pairs `(row, column)`.
-/

namespace SigTest

/-- Whitespace as stripped by Python `str.strip()` (ASCII subset). -/
def isSpaceChar (c : Char) : Bool :=
  c = ' ' || c = '\t' || c = '\n' || c = '\r' || c = '\x0b' || c = '\x0c'

/-- Python `str.strip()` on a character list: drop whitespace at both ends. -/
def stripChars (cs : List Char) : List Char :=
  ((cs.dropWhile isSpaceChar).reverse.dropWhile isSpaceChar).reverse

/-- ASCII letter test, the `[A-Za-z]` class of the address regex. -/
def isLetterChar (c : Char) : Bool :=
  (65 ≤ c.toNat && c.toNat ≤ 90) || (97 ≤ c.toNat && c.toNat ≤ 122)

/-- ASCII digit test, the `\d` class of the address regex. -/
def isDigitChar (c : Char) : Bool :=
  48 ≤ c.toNat && c.toNat ≤ 57

/-- Decimal value of a digit string, as computed by Python `int`. -/
def digitsToNat (ds : List Char) : ℕ :=
  ds.foldl (fun n c => n * 10 + (c.toNat - 48)) 0

/-- Alphabetic character value `A/a = 1 … Z/z = 26` (case-insensitive,
matching the `.upper()` applied before base-26 decoding). -/
def charVal (c : Char) : ℕ :=
  if 97 ≤ c.toNat then c.toNat - 96 else c.toNat - 64

/-- Base-26 column code value: `A=1 … Z=26, AA=27, …`. -/
def base26 (ls : List Char) : ℕ :=
  ls.foldl (fun acc c => acc * 26 + charVal c) 0

/-- Models openpyxl's `column_index_from_string`: the lookup cache holds
exactly the column names `A` through `ZZZ` (indices 1..18278), so an
all-letter name of more than three letters raises `ValueError`, which
the caller catches and turns into a parse failure. -/
def columnIndexFromString (ls : List Char) : Option ℕ :=
  if ls.length ≤ 3 then some (base26 ls) else none

/-- Embeds `_parse_cell_address_token` (data_processor.py:134-151): strip the
token, match `^([A-Za-z]+)(\d+)$`, decode the letter group with
`column_index_from_string(letters.upper())` (failure caught), and
return `(row, column)` 1-based — except that a row of `0` is returned
verbatim for a `0` digit group. -/
def parseCellAddressToken (tok : String) : Option (ℤ × ℤ) :=
  let cs := stripChars tok.toList
  let ls := cs.takeWhile isLetterChar
  let ds := cs.dropWhile isLetterChar
  if ls.isEmpty || ds.isEmpty || !(ds.all isDigitChar) then none
  else
    match columnIndexFromString ls with
    | some ci => some ((digitsToNat ds : ℤ), (ci : ℤ))
    | none => none

/-- The raw pattern stated by the claim: the (untrimmed) token is one
or more letters followed by one or more digits. -/
def matchesLettersDigits (tok : String) : Bool :=
  let cs := tok.toList
  let ls := cs.takeWhile isLetterChar
  let ds := cs.dropWhile isLetterChar
  !ls.isEmpty && !ds.isEmpty && ds.all isDigitChar

/-- The amended parser contract, written from the spec's words plus the
two corrections the code forces: the *trimmed* token must be one to
*three* letters followed by digits, and the result is
`(digits value, base-26 letters value)`. -/
def specParseToken (tok : String) : Option (ℤ × ℤ) :=
  let cs := stripChars tok.toList
  let ls := cs.takeWhile isLetterChar
  let ds := cs.dropWhile isLetterChar
  if !ls.isEmpty && !ds.isEmpty && ds.all isDigitChar && ls.length ≤ 3 then
    some ((digitsToNat ds : ℤ), (base26 ls : ℤ))
  else none

/-! ## Python numeric parsing and rounding

Rational values are always built through `mkRat` on integer
numerator/denominator arithmetic (the `Rat` field operations of the
library are `@[irreducible]` and would block kernel evaluation). -/

/-- Models Python `float(s)` on finite decimal/scientific literals:
optional surrounding whitespace, optional sign, digits with an optional
fractional part (at least one digit overall), and an optional exponent.
The special literals `inf`/`nan` are not modelled (no claim touches
them); such strings are treated as parse failures. -/
def parsePyFloat (s : String) : Option ℚ :=
  let cs := stripChars s.toList
  let sgncs : ℤ × List Char :=
    match cs with
    | '+' :: r => (1, r)
    | '-' :: r => (-1, r)
    | _ => (1, cs)
  let sgn := sgncs.1
  let cs1 := sgncs.2
  let d1 := cs1.takeWhile isDigitChar
  let r1 := cs1.dropWhile isDigitChar
  let fr : List Char × List Char :=
    match r1 with
    | '.' :: t => (t.takeWhile isDigitChar, t.dropWhile isDigitChar)
    | _ => ([], r1)
  let d2 := fr.1
  let r2 := fr.2
  if d1.isEmpty && d2.isEmpty then none
  else
    -- mantissa = (d1 digits).(d2 digits), as m / 10^(length d2)
    let m : ℤ := sgn * ((digitsToNat d1 : ℤ) * (10 : ℤ) ^ d2.length + (digitsToNat d2 : ℤ))
    let den : ℕ := 10 ^ d2.length
    match r2 with
    | [] => some (mkRat m den)
    | e :: t =>
      if e = 'e' || e = 'E' then
        let esgnt : Bool × List Char :=
          match t with
          | '+' :: r => (true, r)
          | '-' :: r => (false, r)
          | _ => (true, t)
        let ed := esgnt.2.takeWhile isDigitChar
        let er := esgnt.2.dropWhile isDigitChar
        if ed.isEmpty || !er.isEmpty then none
        else if esgnt.1 then some (mkRat (m * (10 : ℤ) ^ digitsToNat ed) den)
        else some (mkRat m (den * 10 ^ digitsToNat ed))
      else none

/-- Truncation toward zero, the conversion Python `int(float)` applies. -/
def truncQ (q : ℚ) : ℤ :=
  if 0 ≤ q.num then q.floor else -((mkRat (-q.num) q.den).floor)

/-- Python `int(float(s))` on a cell string: parse then truncate toward zero. -/
def pyIntOfFloatStr (s : String) : Option ℤ :=
  (parsePyFloat s).map truncQ

/-- Round-half-to-even to an integer, Python's `round` tie rule.
`t` is the numerator of twice the fractional part over `q.den`. -/
def roundHalfEven (q : ℚ) : ℤ :=
  let f := q.floor
  let t : ℤ := 2 * (q.num - f * (q.den : ℤ))
  if t < (q.den : ℤ) then f
  else if (q.den : ℤ) < t then f + 1
  else if f % 2 = 0 then f else f + 1

/-- Python `round(x, n)` on the rational model: round half-to-even at
`n` decimal places. -/
def pyRound (q : ℚ) (n : ℕ) : ℚ :=
  mkRat (roundHalfEven (mkRat (q.num * (10 : ℤ) ^ n) q.den)) (10 ^ n)

example : parsePyFloat "7.8" = some (mkRat 39 5) := by decide
example : parsePyFloat "-0.5" = some (mkRat (-1) 2) := by decide
example : parsePyFloat "7." = some 7 := by decide
example : parsePyFloat ".5" = some (mkRat 1 2) := by decide
example : parsePyFloat "2e3" = some 2000 := by decide
example : parsePyFloat "2e-2" = some (mkRat 1 50) := by decide
example : parsePyFloat "n/a" = none := by decide
example : parsePyFloat "None" = none := by decide
example : parsePyFloat "" = none := by decide
example : pyRound (mkRat 2469 200) 0 = 12 := by decide
example : pyRound (mkRat 39 5) 0 = 8 := by decide
example : pyRound (mkRat 5 2) 0 = 2 := by decide
example : pyRound (mkRat 7 2) 0 = 4 := by decide
example : pyRound (mkRat 12345 1000) 2 = mkRat 617 50 := by decide
example : pyIntOfFloatStr "0" = some 0 := by decide
example : pyIntOfFloatStr "-2.7" = some (-2) := by decide
example : pyIntOfFloatStr "B12" = none := by decide

/-! ## Highlight CSV resolution (`_parse_highlight_csv`,
data_processor.py:153-234)

A CSV row is an association list from column label to an optional
string value (`none` models a `NaN`/missing cell under `dtype=str`).
The dataframe's column order is carried separately. -/

/-- ASCII lowercase of one character, as Python `str.lower()`. -/
def lowerChar (c : Char) : Char :=
  if 65 ≤ c.toNat && c.toNat ≤ 90 then Char.ofNat (c.toNat + 32) else c

/-- ASCII lowercase of a character list. -/
def lowerChars (cs : List Char) : List Char :=
  cs.map lowerChar

/-- One CSV row: column label paired with its (possibly missing) value. -/
abbrev CsvRow : Type := List (String × Option String)

/-- Models `cols` built as a lowercased-label dictionary followed by
`cols[key]`: the *last* column whose lowercased label equals `key`
(later dict assignments overwrite earlier ones); `none` when the key
is absent. -/
def colsGet (columns : List String) (key : String) : Option String :=
  columns.reverse.find? (fun c => lowerChars c.toList == key.toList)

/-- Pandas `row.get(label)`: the value stored under the first matching label. -/
def rowGet (row : CsvRow) (label : String) : Option String :=
  match row.find? (fun p => p.1 == label) with
  | some p => p.2
  | none => none

/-- Rule 1 step: if column `name` (lowercased) exists, fetch the row's
value there and try the address parser; `NaN` or parse failure yields
`none`. -/
def tryAddressCol (columns : List String) (row : CsvRow) (name : String) :
    Option (ℤ × ℤ) :=
  match colsGet columns name with
  | none => none
  | some col =>
    match rowGet row col with
    | none => none
    | some tok => parseCellAddressToken tok

/-- Rule 1: the explicit `cell` column, then the `address` column. -/
def rule1 (columns : List String) (row : CsvRow) : Option (ℤ × ℤ) :=
  match tryAddressCol columns row "cell" with
  | some p => some p
  | none => tryAddressCol columns row "address"

/-- The fixed row-number alias list of the source. -/
def rowAliases : List String := ["row", "r", "excel_row", "row_index"]

/-- The fixed column-number alias list of the source. -/
def colAliases : List String := ["col", "c", "column", "col_index"]

/-- Rule 2 extraction loop: walk the alias list; an alias whose column
is present with a non-missing value that parses via `int(float(...))`
wins (`break`); a missing column, missing value, or parse failure falls
through to the next alias. -/
def firstIntAlias (columns : List String) (row : CsvRow) :
    List String → Option ℤ
  | [] => none
  | a :: rest =>
    match colsGet columns a with
    | none => firstIntAlias columns row rest
    | some col =>
      match rowGet row col with
      | none => firstIntAlias columns row rest
      | some s =>
        match pyIntOfFloatStr s with
        | some n => some n
        | none => firstIntAlias columns row rest

/-- Rule 3 fallback scan: walk `df.columns` in order and return the
first non-missing value that the address parser accepts. -/
def scanCols (row : CsvRow) : List String → Option (ℤ × ℤ)
  | [] => none
  | col :: rest =>
    match rowGet row col with
    | none => scanCols row rest
    | some v =>
      match parseCellAddressToken v with
      | some p => some p
      | none => scanCols row rest

/-- Per-row coordinate resolution, the loop body of
`_parse_highlight_csv` (data_processor.py:183-232): rule 1 (explicit
address), else rule 2 (numeric row/col with the 0-based heuristic),
else rule 3 (scan of *every* dataframe column). -/
def resolveRow (columns : List String) (row : CsvRow) : Option (ℤ × ℤ) :=
  match rule1 columns row with
  | some p => some p
  | none =>
    match firstIntAlias columns row rowAliases,
          firstIntAlias columns row colAliases with
    | some r, some c =>
      if 1 ≤ r ∧ 1 ≤ c then some (r, c) else some (r + 1, c + 1)
    | _, _ => scanCols row columns

/-- Modelled from the spec: the claim's reading of rule 3, in which
only the *remaining* columns — those not recognized as an address or a
row/column alias column — are scanned.  Used to exhibit where the code
diverges from this reading. -/
def resolveRowSpec (columns : List String) (row : CsvRow) : Option (ℤ × ℤ) :=
  match rule1 columns row with
  | some p => some p
  | none =>
    match firstIntAlias columns row rowAliases,
          firstIntAlias columns row colAliases with
    | some r, some c =>
      if 1 ≤ r ∧ 1 ≤ c then some (r, c) else some (r + 1, c + 1)
    | _, _ =>
      scanCols row (columns.filter
        (fun c => !(["cell", "address"] ++ rowAliases ++ colAliases).any
          (fun a => lowerChars c.toList == a.toList)))

/-- Group key of the results dictionary: `"__ALL__"` when no grouping
column exists or its value is blank; a missing (`NaN`) value keeps the
float-nan key the Python `or` lets through. -/
inductive GroupKey where
  | str (s : String)
  | nan
deriving DecidableEq

/-- The grouping column: first of `table`, `sheet`, `file`,
`table_name` present among the lowercased column labels. -/
def tableKeyCol (columns : List String) : Option String :=
  match colsGet columns "table" with
  | some c => some c
  | none =>
    match colsGet columns "sheet" with
    | some c => some c
    | none =>
      match colsGet columns "file" with
      | some c => some c
      | none => colsGet columns "table_name"

/-- Key chosen for a row: `row.get(key_col) or "__ALL__"`. -/
def keyOf (columns : List String) (row : CsvRow) : GroupKey :=
  match tableKeyCol columns with
  | none => GroupKey.str "__ALL__"
  | some kc =>
    match rowGet row kc with
    | none => GroupKey.nan
    | some s => if s = "" then GroupKey.str "__ALL__" else GroupKey.str s

/-- The whole of `_parse_highlight_csv` on a parsed dataframe: fold the
rows, recording `(key, coordinate)` for every row some rule resolves.
The Python dict-of-sets is abstracted to the list of recorded pairs
(membership is what every consumer uses). -/
def buildHighlightIndex (columns : List String) (rows : List CsvRow) :
    List (GroupKey × ℤ × ℤ) :=
  rows.foldl
    (fun acc row =>
      match resolveRow columns row with
      | some p => acc ++ [(keyOf columns row, p)]
      | none => acc)
    []

/-! ## Coordinate space mapping (`_excel_coords_to_df_indices`,
data_processor.py:236-249) -/

/-- Map 1-based spreadsheet coordinates to 0-based dataframe indices,
dropping any result with a negative component. -/
def excelCoordsToDfIndices (coords : List (ℤ × ℤ)) (headerPresent : Bool) :
    List (ℤ × ℤ) :=
  coords.filterMap (fun p =>
    let dfR := if headerPresent then p.1 - 2 else p.1 - 1
    let dfC := p.2 - 1
    if 0 ≤ dfR ∧ 0 ≤ dfC then some (dfR, dfC) else none)

/-! ## Renderer cell styling (`build_combined_highlight_html`,
data_processor.py:325-337) -/

/-- Background style chosen for one grid cell: green membership is
checked first, red only in the `elif`, otherwise no style. -/
def cellHighlightStyle (green red : List (ℤ × ℤ)) (rc : ℤ × ℤ) : String :=
  if rc ∈ green then "background:#C6EFCE;"
  else if rc ∈ red then "background:#FFC7CE;"
  else ""

example :
    resolveRow ["cell"] [("cell", some "B12")] = some (12, 2) := by decide
example :
    resolveRow ["row", "col"] [("row", some "0"), ("col", some "0")]
      = some (1, 1) := by decide
example :
    resolveRow ["row", "col"] [("row", some "3"), ("col", some "4")]
      = some (3, 4) := by decide
example :
    resolveRow ["row", "note"] [("row", some "B12"), ("note", some "C3")]
      = some (12, 2) := by decide
example :
    resolveRowSpec ["row", "note"] [("row", some "B12"), ("note", some "C3")]
      = some (3, 3) := by decide
example :
    resolveRow ["x"] [("x", some "zzzz")] = none := by decide
example :
    excelCoordsToDfIndices [(2, 1)] true = [(0, 0)] := by decide
example :
    excelCoordsToDfIndices [(1, 1)] false = [(0, 0)] := by decide
example :
    excelCoordsToDfIndices [(1, 1), (5, 3)] true = [(3, 2)] := by decide

example : parseCellAddressToken "B12" = some (12, 2) := by decide
example : parseCellAddressToken "b12" = some (12, 2) := by decide
example : parseCellAddressToken "AA7" = some (7, 27) := by decide
example : parseCellAddressToken "AAAA1" = none := by decide
example : parseCellAddressToken " B12 " = some (12, 2) := by decide
example : parseCellAddressToken "A0" = some (0, 1) := by decide
example : parseCellAddressToken "xyz" = none := by decide

/-! ## Column-preserving export (`app.py`, lines 398-535)

A worksheet is a list of rows of cell values, 1-based in row/column
numbering at the interface.  Cell values are `None`, a number, or a
string. -/

/-- An openpyxl cell value. -/
inductive CellValue where
  | none
  | num (q : ℚ)
  | str (s : String)
deriving DecidableEq

/-- A worksheet grid: a list of rows of cells. -/
abbrev Grid : Type := List (List CellValue)

/-- Maximum column extent, openpyxl's `ws.max_column`. -/
def gridMaxCol (g : Grid) : ℕ :=
  (g.map List.length).foldr max 0

/-- Header cell text: `"" if v is None else str(v).strip()`
(app.py:444).  A numeric cell's Python repr never coincides with any
alphabetic column label; no claim inspects numeric header text, so the
repr itself is abstracted by `toString`. -/
def headerCellText : CellValue → String
  | CellValue.none => ""
  | CellValue.num q => toString q
  | CellValue.str s => String.mk (stripChars s.toList)

/-- Embeds `ws.insert_rows(1)` followed by `ws.cell(row=1, column=1,
value=title)` (app.py:426-434): a fresh top row holding only the
derived title, padded to the sheet extent. -/
def insertTitleRow (title : String) (g : Grid) : Grid :=
  (CellValue.str title :: List.replicate (gridMaxCol g - 1) CellValue.none) :: g

/-- Header values read from the header row (app.py:440-444): the
trimmed text of cells `1..max_column` of row 2; cells beyond the
stored row width are `None`, hence `""`. -/
def readHeaderValues (g : Grid) : List String :=
  let row2 := (g.get? 1).getD []
  (List.range (gridMaxCol g)).map
    (fun i => headerCellText ((row2.get? i).getD CellValue.none))

/-- The `"Total"` test of app.py:458-459: a non-empty header value
whose lowercase form is `total`. -/
def isTotalName (s : String) : Bool :=
  s ≠ "" && lowerChars s.toList == "total".toList

/-- Embeds `normalized_keep` (app.py:446-463): trim the caller's keep-list,
prepend the first column's header when absent, then append every
`Total`-labelled header value still absent. -/
def buildKeep (headerValues : List String) (keepCols : List String) :
    List String :=
  let nk := keepCols.map (fun s => String.mk (stripChars s.toList))
  let nk1 :=
    match headerValues with
    | [] => nk
    | f :: _ => if f ∈ nk then nk else f :: nk
  headerValues.foldl
    (fun acc h => if isTotalName h ∧ h ∉ acc then acc ++ [h] else acc)
    nk1

/-- Embeds `cols_to_delete` (app.py:470-473): the 1-based indices, other than
1, whose header value is not in the normalized keep-list; `idx` is the
1-based index of the first listed header value. -/
def colsToDeleteFrom (idx : ℕ) (headerValues nk : List String) : List ℕ :=
  match headerValues with
  | [] => []
  | h :: rest =>
    (if idx ≠ 1 ∧ h ∉ nk then [idx] else []) ++ colsToDeleteFrom (idx + 1) rest nk

/-- The delete-index list computed by the exporter. -/
def colsToDelete (headerValues nk : List String) : List ℕ :=
  colsToDeleteFrom 1 headerValues nk

/-- Python `sorted(l, reverse=True)` on the index list. -/
def sortDesc (l : List ℕ) : List ℕ :=
  List.insertionSort (· ≥ ·) l

/-- Embeds `ws.delete_cols(i)` for a 1-based index: remove the cell at that
column from every row (rows shorter than `i` are unaffected). -/
def wsDeleteCols (g : Grid) (i : ℕ) : Grid :=
  g.map (fun row => row.eraseIdx (i - 1))

/-- The deletion batch of app.py:476-478: sort the indices in
descending order, then delete each in turn, guarded by
`1 <= col_idx <= ws.max_column`. -/
def applyDeletesAux (g : Grid) : List ℕ → Grid
  | [] => g
  | i :: rest =>
    applyDeletesAux (if 1 ≤ i ∧ i ≤ gridMaxCol g then wsDeleteCols g i else g) rest

/-- Full deletion step on the worksheet. -/
def applyDeletes (g : Grid) (l : List ℕ) : Grid :=
  applyDeletesAux g (sortDesc l)

/-- Reference deletion: keep exactly the entries whose 1-based position
(counted from `off`) is not in the delete list, in order. -/
def keepFilter {α : Type} (l : List ℕ) (off : ℕ) : List α → List α
  | [] => []
  | a :: rest =>
    if off ∈ l then keepFilter l (off + 1) rest
    else a :: keepFilter l (off + 1) rest

/-- The `"Base"` cell test of app.py:487:
`v is not None and str(v).strip().lower() == "base"`.  A numeric value
never stringifies to an alphabetic word, so only string cells can match. -/
def isBaseCell : CellValue → Bool
  | CellValue.none => false
  | CellValue.num _ => false
  | CellValue.str s => lowerChars (stripChars s.toList) == "base".toList

/-- Per-cell rounding (app.py:496-507): numbers are rounded in place;
strings that `float(...)` accepts are replaced by the rounded number;
everything else (including `None`, whose `str` is not numeric) is left
unchanged. -/
def roundCell (n : ℕ) : CellValue → CellValue
  | CellValue.num q => CellValue.num (pyRound q n)
  | CellValue.str s =>
    match parsePyFloat s with
    | some q => CellValue.num (pyRound q n)
    | Option.none => CellValue.str s
  | CellValue.none => CellValue.none

/-- Round every cell of a row. -/
def roundRow (n : ℕ) (row : List CellValue) : List CellValue :=
  row.map (roundCell n)

/-- The `"Base"`-row rounding step (app.py:481-509) on the rows
strictly below the header: the first row containing a `Base` cell is
rounded; all other rows are untouched; no match leaves everything
unchanged. -/
def roundBaseStep (n : ℕ) : List (List CellValue) → List (List CellValue)
  | [] => []
  | row :: rest =>
    if row.any isBaseCell then roundRow n row :: rest
    else row :: roundBaseStep n rest

/-- Outcome of one press of the save button. -/
structure ExportOutcome where
  destContent : Grid
  aborted : Bool
deriving DecidableEq

/-- The export action (app.py:406-519): copy the original workbook to
the export destination (`shutil.copy2`), load it, insert the title
row, read the header, build the keep-list; abort — leaving the
destination holding the unmutated copy — when every header cell is
empty; otherwise delete the unwanted columns, round the `Base` row
below the header, and save the mutated grid over the destination. -/
def exportRun (orig : Grid) (keepCols : List String) (title : String)
    (decimalPlaces : ℕ) : ExportOutcome :=
  let working := insertTitleRow title orig
  let headerValues := readHeaderValues working
  if headerValues.all (fun h => h = "") then
    { destContent := orig, aborted := true }
  else
    let nk := buildKeep headerValues keepCols
    let d := colsToDelete headerValues nk
    let afterDel := applyDeletes working d
    let afterRound := afterDel.take 2 ++ roundBaseStep decimalPlaces (afterDel.drop 2)
    { destContent := afterRound, aborted := false }

example :
    buildKeep ["ID", "A", "Total", "B"] ["A"] = ["ID", "A", "Total"] := by decide
example :
    colsToDelete ["ID", "A", "Total", "B"] ["ID", "A", "Total"] = [4] := by decide
example :
    applyDeletes [[CellValue.str "a", CellValue.str "b", CellValue.str "c",
      CellValue.str "d", CellValue.str "e"]] [4, 2]
      = [[CellValue.str "a", CellValue.str "c", CellValue.str "e"]] := by decide
example :
    applyDeletes [[CellValue.str "a", CellValue.str "b", CellValue.str "c",
      CellValue.str "d", CellValue.str "e"]] [2, 4]
      = [[CellValue.str "a", CellValue.str "c", CellValue.str "e"]] := by decide
example :
    roundBaseStep 0
      [[CellValue.str "Base", CellValue.num (mkRat 2469 200),
        CellValue.str "7.8", CellValue.str "n/a"]]
      = [[CellValue.str "Base", CellValue.num 12, CellValue.num 8,
          CellValue.str "n/a"]] := by decide
example :
    (exportRun [[CellValue.str "ID", CellValue.str "A", CellValue.str "Total",
      CellValue.str "B"]] ["A"] "T" 0).aborted = false := by decide
example :
    (exportRun [[CellValue.str "ID", CellValue.str "A", CellValue.str "Total",
      CellValue.str "B"]] ["A"] "T" 0).destContent.get? 1
      = some [CellValue.str "ID", CellValue.str "A", CellValue.str "Total"] := by
  decide
example :
    exportRun [[CellValue.none, CellValue.str "  "]] ["A"] "T" 0
      = { destContent := [[CellValue.none, CellValue.str "  "]],
          aborted := true } := by decide

/-! ## Deletion-order lemmas -/

theorem keepFilter_of_forall_lt {α : Type} (l : List ℕ) :
    ∀ (row : List α) (off : ℕ), (∀ j ∈ l, j < off) → keepFilter l off row = row := by
  intro row
  induction row with
  | nil => intro off _; rfl
  | cons a rest ih =>
    intro off h
    have hoff : off ∉ l := fun hm => lt_irrefl off (h off hm)
    simp [keepFilter, hoff, ih (off + 1) (fun j hj => Nat.lt_succ_of_lt (h j hj))]

theorem keepFilter_congr {α : Type} {l1 l2 : List ℕ}
    (hmem : ∀ j, j ∈ l1 ↔ j ∈ l2) :
    ∀ (row : List α) (off : ℕ), keepFilter l1 off row = keepFilter l2 off row := by
  intro row
  induction row with
  | nil => intro off; rfl
  | cons a rest ih =>
    intro off
    by_cases h : off ∈ l1
    · simp [keepFilter, h, (hmem off).mp h, ih]
    · have h2 : off ∉ l2 := fun hx => h ((hmem off).mpr hx)
      simp [keepFilter, h, h2, ih]

theorem keepFilter_eraseIdx {α : Type} :
    ∀ (row : List α) (off i : ℕ) (l : List ℕ), (∀ j ∈ l, j < i) → off ≤ i →
      i < off + row.length →
      keepFilter l off (row.eraseIdx (i - off)) = keepFilter (i :: l) off row := by
  intro row
  induction row with
  | nil =>
    intro off i l _ hoi hlen
    simp at hlen
    omega
  | cons a rest ih =>
    intro off i l hl hoi hlen
    rcases Nat.eq_or_lt_of_le hoi with heq | hlt
    · subst heq
      rw [Nat.sub_self]
      show keepFilter l off rest = keepFilter (off :: l) off (a :: rest)
      have hR : keepFilter (off :: l) off (a :: rest)
          = keepFilter (off :: l) (off + 1) rest := by
        simp [keepFilter]
      rw [hR, keepFilter_of_forall_lt l rest off hl,
        keepFilter_of_forall_lt (off :: l) rest (off + 1)]
      intro j hj
      rcases List.mem_cons.mp hj with rfl | hj
      · omega
      · exact Nat.lt_succ_of_lt (hl j hj)
    · have hi : i - off = (i - (off + 1)) + 1 := by omega
      rw [hi]
      show keepFilter l off (a :: rest.eraseIdx (i - (off + 1)))
          = keepFilter (i :: l) off (a :: rest)
      have hoffi : off ∈ i :: l ↔ off ∈ l := by
        constructor
        · intro hx
          rcases List.mem_cons.mp hx with rfl | hx
          · omega
          · exact hx
        · exact fun hx => List.mem_cons_of_mem _ hx
      have hlen2 : i < (off + 1) + rest.length := by
        simp only [List.length_cons] at hlen
        omega
      have hrec := ih (off + 1) i l hl (by omega) hlen2
      by_cases hm : off ∈ l
      · simp only [keepFilter, if_pos hm, if_pos (hoffi.mpr hm)]
        exact hrec
      · simp only [keepFilter, if_neg hm, if_neg (fun hx => hm (hoffi.mp hx))]
        rw [hrec]

theorem gridMaxCol_cons (r : List CellValue) (g : Grid) :
    gridMaxCol (r :: g) = max r.length (gridMaxCol g) := rfl

theorem gridMaxCol_eq : ∀ {g : Grid} {w : ℕ}, g ≠ [] →
    (∀ r ∈ g, r.length = w) → gridMaxCol g = w := by
  intro g
  induction g with
  | nil => intro w hne _; cases hne rfl
  | cons r rest ih =>
    intro w _ hw
    rw [gridMaxCol_cons, hw r (List.mem_cons_self r rest)]
    by_cases h : rest = []
    · subst h
      show max w (gridMaxCol []) = w
      simp [gridMaxCol]
    · rw [ih h (fun x hx => hw x (List.mem_cons_of_mem _ hx))]
      omega

theorem applyDeletesAux_eq_keepFilter :
    ∀ (l : List ℕ) (g : Grid) (w : ℕ),
      List.Pairwise (fun a b => b < a) l →
      (∀ i ∈ l, 1 ≤ i ∧ i ≤ w) →
      (∀ r ∈ g, r.length = w) →
      applyDeletesAux g l = g.map (keepFilter l 1) := by
  intro l
  induction l with
  | nil =>
    intro g w _ _ _
    have h1 : g.map (keepFilter ([] : List ℕ) 1) = g := by
      conv_rhs => rw [← List.map_id g]
      exact List.map_congr_left
        (fun r _ => keepFilter_of_forall_lt _ r 1 (by simp))
    rw [h1]
    rfl
  | cons i l ih =>
    intro g w hpw hbd hrect
    have hlt : ∀ j ∈ l, j < i := (List.pairwise_cons.mp hpw).1
    have hpl := (List.pairwise_cons.mp hpw).2
    have hbdl : ∀ j ∈ l, 1 ≤ j ∧ j ≤ w :=
      fun j hj => hbd j (List.mem_cons_of_mem _ hj)
    by_cases hg : g = []
    · subst hg
      have hguard : ¬ (1 ≤ i ∧ i ≤ gridMaxCol ([] : Grid)) := by
        intro h
        have h0 : gridMaxCol ([] : Grid) = 0 := rfl
        omega
      show applyDeletesAux (if 1 ≤ i ∧ i ≤ gridMaxCol ([] : Grid)
        then wsDeleteCols [] i else []) l = List.map (keepFilter (i :: l) 1) []
      rw [if_neg hguard, ih [] w hpl hbdl (by intro r hr; cases hr)]
      rfl
    · have hw : gridMaxCol g = w := gridMaxCol_eq hg hrect
      have hib : 1 ≤ i ∧ i ≤ w := hbd i (List.mem_cons_self i l)
      have hguard : 1 ≤ i ∧ i ≤ gridMaxCol g := by rw [hw]; exact hib
      show applyDeletesAux (if 1 ≤ i ∧ i ≤ gridMaxCol g
        then wsDeleteCols g i else g) l = g.map (keepFilter (i :: l) 1)
      rw [if_pos hguard]
      have hrect2 : ∀ r ∈ wsDeleteCols g i, r.length = w - 1 := by
        intro r hr
        rcases List.mem_map.mp hr with ⟨r0, hr0, rfl⟩
        rw [List.length_eraseIdx, hrect r0 hr0]
        have hiw : i - 1 < w := by omega
        simp [hiw]
      have hbd2 : ∀ j ∈ l, 1 ≤ j ∧ j ≤ w - 1 := by
        intro j hj
        have h1 := hbdl j hj
        have h2 := hlt j hj
        omega
      rw [ih (wsDeleteCols g i) (w - 1) hpl hbd2 hrect2]
      unfold wsDeleteCols
      rw [List.map_map]
      apply List.map_congr_left
      intro r hr
      show keepFilter l 1 (r.eraseIdx (i - 1)) = keepFilter (i :: l) 1 r
      exact keepFilter_eraseIdx r 1 i l hlt hib.1 (by rw [hrect r hr]; omega)

theorem applyDeletes_eq_keepFilter (g : Grid) (w : ℕ) (l : List ℕ)
    (hnd : l.Nodup) (hbd : ∀ i ∈ l, 1 ≤ i ∧ i ≤ w)
    (hrect : ∀ r ∈ g, r.length = w) :
    applyDeletes g l = g.map (keepFilter l 1) := by
  have hperm : List.Perm (sortDesc l) l := List.perm_insertionSort _ l
  have hsorted : List.Sorted (· ≥ ·) (sortDesc l) :=
    List.sorted_insertionSort _ l
  have hnd2 : (sortDesc l).Nodup := hperm.nodup_iff.mpr hnd
  have hstrict : List.Pairwise (fun a b => b < a) (sortDesc l) := by
    have hcomb := hsorted.and hnd2
    exact hcomb.imp (fun hab => lt_of_le_of_ne hab.1 hab.2.symm)
  have hbd2 : ∀ i ∈ sortDesc l, 1 ≤ i ∧ i ≤ w :=
    fun i hi => hbd i (hperm.mem_iff.mp hi)
  have hmain := applyDeletesAux_eq_keepFilter (sortDesc l) g w hstrict hbd2 hrect
  rw [applyDeletes, hmain]
  exact List.map_congr_left
    (fun r _ => keepFilter_congr (fun j => hperm.mem_iff) r 1)

/-! ## Keep-list and delete-list lemmas -/

theorem buildKeep_fold_mono (x : String) :
    ∀ (hs acc : List String), x ∈ acc →
      x ∈ hs.foldl
        (fun acc h => if isTotalName h ∧ h ∉ acc then acc ++ [h] else acc) acc := by
  intro hs
  induction hs with
  | nil => intro acc hx; exact hx
  | cons h rest ih =>
    intro acc hx
    show x ∈ rest.foldl _ (if isTotalName h ∧ h ∉ acc then acc ++ [h] else acc)
    by_cases hc : isTotalName h ∧ h ∉ acc
    · rw [if_pos hc]
      exact ih _ (List.mem_append_left _ hx)
    · rw [if_neg hc]
      exact ih _ hx

theorem buildKeep_fold_total (x : String) :
    ∀ (hs acc : List String), x ∈ hs → isTotalName x →
      x ∈ hs.foldl
        (fun acc h => if isTotalName h ∧ h ∉ acc then acc ++ [h] else acc) acc := by
  intro hs
  induction hs with
  | nil => intro acc hx _; cases hx
  | cons h rest ih =>
    intro acc hx ht
    rcases List.mem_cons.mp hx with rfl | hx
    · show x ∈ rest.foldl _ (if isTotalName x ∧ x ∉ acc then acc ++ [x] else acc)
      by_cases hc : isTotalName x ∧ x ∉ acc
      · rw [if_pos hc]
        exact buildKeep_fold_mono x rest _ (List.mem_append_right _ (by simp))
      · rw [if_neg hc]
        have hin : x ∈ acc := by
          by_cases hm : x ∈ acc
          · exact hm
          · exact absurd ⟨ht, hm⟩ hc
        exact buildKeep_fold_mono x rest _ hin
    · exact ih _ hx ht

theorem buildKeep_total_mem (headerValues keepCols : List String)
    (x : String) (hx : x ∈ headerValues) (ht : isTotalName x) :
    x ∈ buildKeep headerValues keepCols :=
  buildKeep_fold_total x headerValues _ hx ht

theorem buildKeep_first_mem (f : String) (rest keepCols : List String) :
    f ∈ buildKeep (f :: rest) keepCols := by
  simp only [buildKeep]
  apply buildKeep_fold_mono
  by_cases hm : f ∈ keepCols.map (fun s => String.mk (stripChars s.toList))
  · rw [if_pos hm]
    exact hm
  · rw [if_neg hm]
    exact List.mem_cons_self f _

theorem colsToDeleteFrom_ge_and_ne_one :
    ∀ (hs : List String) (idx : ℕ) (nk : List String) (j : ℕ),
      j ∈ colsToDeleteFrom idx hs nk → idx ≤ j ∧ j ≠ 1 := by
  intro hs
  induction hs with
  | nil => intro idx nk j hj; cases hj
  | cons h rest ih =>
    intro idx nk j hj
    rcases List.mem_append.mp hj with hj | hj
    · by_cases hc : idx ≠ 1 ∧ h ∉ nk
      · rw [if_pos hc] at hj
        rcases List.mem_singleton.mp hj with rfl
        exact ⟨le_refl _, hc.1⟩
      · rw [if_neg hc] at hj
        cases hj
    · have := ih (idx + 1) nk j hj
      exact ⟨by omega, this.2⟩

theorem colsToDeleteFrom_not_mem_of_kept :
    ∀ (hs : List String) (idx k : ℕ) (nk : List String) (hk : k < hs.length),
      hs.get ⟨k, hk⟩ ∈ nk → (idx + k) ∉ colsToDeleteFrom idx hs nk := by
  intro hs
  induction hs with
  | nil => intro idx k nk hk; cases (Nat.not_lt_zero k) hk
  | cons h rest ih =>
    intro idx k nk hk hmem hj
    rcases List.mem_append.mp hj with hj | hj
    · by_cases hc : idx ≠ 1 ∧ h ∉ nk
      · rw [if_pos hc] at hj
        have : idx + k = idx := List.mem_singleton.mp hj
        have hk0 : k = 0 := by omega
        subst hk0
        exact hc.2 hmem
      · rw [if_neg hc] at hj
        cases hj
    · match k with
      | 0 =>
        have := (colsToDeleteFrom_ge_and_ne_one rest (idx + 1) nk _ hj).1
        omega
      | Nat.succ k0 =>
        have hk0 : k0 < rest.length := by
          simpa using Nat.lt_of_succ_lt_succ hk
        have hmem0 : rest.get ⟨k0, hk0⟩ ∈ nk := by
          simpa using hmem
        have := ih (idx + 1) k0 nk hk0 hmem0
        apply this
        have harith : idx + (k0 + 1) = (idx + 1) + k0 := by omega
        rw [harith] at hj
        exact hj

theorem keepFilter_get_mem {α : Type} :
    ∀ (row : List α) (l : List ℕ) (off k : ℕ) (hk : k < row.length),
      (off + k) ∉ l → row.get ⟨k, hk⟩ ∈ keepFilter l off row := by
  intro row
  induction row with
  | nil => intro l off k hk; cases (Nat.not_lt_zero k) hk
  | cons a rest ih =>
    intro l off k hk hnotin
    match k with
    | 0 =>
      have hoff : off ∉ l := by simpa using hnotin
      show a ∈ keepFilter l off (a :: rest)
      simp [keepFilter, hoff]
    | Nat.succ k0 =>
      have hk0 : k0 < rest.length := by simpa using Nat.lt_of_succ_lt_succ hk
      have hnotin0 : ((off + 1) + k0) ∉ l := by
        intro hx
        apply hnotin
        have : off + (k0 + 1) = (off + 1) + k0 := by omega
        rw [this]
        exact hx
      have hrec := ih l (off + 1) k0 hk0 hnotin0
      show (a :: rest).get ⟨k0 + 1, hk⟩ ∈ keepFilter l off (a :: rest)
      by_cases hoff : off ∈ l
      · simpa [keepFilter, hoff] using hrec
      · simp only [keepFilter, if_neg hoff]
        exact List.mem_cons_of_mem _ (by simpa using hrec)

/-! ## Claim theorems -/

/-- C1: For every export whose header row is non-empty, the computed
delete-index list never contains column 1 and never contains any
column whose (trimmed) header case-insensitively equals `"Total"`,
regardless of the caller's keep-list; such columns therefore survive
the deletion (stated via the reference deletion `keepFilter`, which
`applyDeletes` provably implements), and the first header value stays
in front.  In particular, for header row `["ID","A","Total","B"]` and
keep-list `["A"]`, the header row after the full export pipeline is
exactly `["ID","A","Total"]`. -/
theorem export_preserves_first_and_total_columns
    (headerValues keepCols : List String)
    (hne : ∃ h ∈ headerValues, h ≠ "") :
    1 ∉ colsToDelete headerValues (buildKeep headerValues keepCols) ∧
    (∀ k (hk : k < headerValues.length),
        isTotalName (headerValues.get ⟨k, hk⟩) →
        (1 + k) ∉ colsToDelete headerValues (buildKeep headerValues keepCols) ∧
        headerValues.get ⟨k, hk⟩ ∈
          keepFilter (colsToDelete headerValues (buildKeep headerValues keepCols))
            1 headerValues) ∧
    (∀ f rest, headerValues = f :: rest →
        f ∈ buildKeep headerValues keepCols ∧
        keepFilter (colsToDelete headerValues (buildKeep headerValues keepCols))
            1 headerValues
          = f :: keepFilter (colsToDelete headerValues (buildKeep headerValues keepCols))
            2 rest) ∧
    (exportRun [[CellValue.str "ID", CellValue.str "A", CellValue.str "Total",
        CellValue.str "B"]] ["A"] "T" 0).destContent.get? 1
      = some [CellValue.str "ID", CellValue.str "A", CellValue.str "Total"] := by
  have h1 : 1 ∉ colsToDelete headerValues (buildKeep headerValues keepCols) := by
    intro hx
    exact (colsToDeleteFrom_ge_and_ne_one headerValues 1 _ 1 hx).2 rfl
  refine ⟨h1, ?_, ?_, by decide⟩
  · intro k hk ht
    have hmem : headerValues.get ⟨k, hk⟩ ∈ buildKeep headerValues keepCols :=
      buildKeep_total_mem headerValues keepCols _ (List.get_mem headerValues _ hk) ht
    have hnot := colsToDeleteFrom_not_mem_of_kept headerValues 1 k _ hk hmem
    exact ⟨hnot, keepFilter_get_mem headerValues _ 1 k hk hnot⟩
  · intro f rest hfr
    subst hfr
    refine ⟨buildKeep_first_mem f rest keepCols, ?_⟩
    show keepFilter _ 1 (f :: rest) = f :: keepFilter _ 2 rest
    simp [keepFilter, h1]

/-- Witness for C1 at the spec's example header and keep-list. -/
theorem export_preserves_first_and_total_columns_witness :
    1 ∉ colsToDelete ["ID", "A", "Total", "B"]
        (buildKeep ["ID", "A", "Total", "B"] ["A"]) ∧
    "Total" ∈ keepFilter
        (colsToDelete ["ID", "A", "Total", "B"]
          (buildKeep ["ID", "A", "Total", "B"] ["A"]))
        1 ["ID", "A", "Total", "B"] := by
  have h := export_preserves_first_and_total_columns
    ["ID", "A", "Total", "B"] ["A"] ⟨"ID", by decide⟩
  refine ⟨h.1, ?_⟩
  have h2 := (h.2.1 2 (by decide) (by decide)).2
  simpa using h2

/-- C2: The exporter applies column deletions in strictly descending
index order (`applyDeletes` first sorts the index list descending);
for every duplicate-free in-range delete list over a rectangular grid
the result equals the reference implementation that keeps exactly the
columns whose 1-based position is not listed, and consequently the
final grid is insensitive to the input ordering of the delete-index
list. -/
theorem delete_batch_matches_reference_order_insensitive
    (g : Grid) (w : ℕ) (l1 l2 : List ℕ)
    (hrect : ∀ r ∈ g, r.length = w) (hnd : l1.Nodup)
    (hbd : ∀ i ∈ l1, 1 ≤ i ∧ i ≤ w) (hperm : List.Perm l1 l2) :
    applyDeletes g l1 = g.map (keepFilter l1 1) ∧
    applyDeletes g l2 = applyDeletes g l1 := by
  have h1 := applyDeletes_eq_keepFilter g w l1 hnd hbd hrect
  have hnd2 : l2.Nodup := hperm.nodup_iff.mp hnd
  have hbd2 : ∀ i ∈ l2, 1 ≤ i ∧ i ≤ w :=
    fun i hi => hbd i (hperm.mem_iff.mpr hi)
  have h2 := applyDeletes_eq_keepFilter g w l2 hnd2 hbd2 hrect
  refine ⟨h1, ?_⟩
  rw [h1, h2]
  exact List.map_congr_left
    (fun r _ => keepFilter_congr (fun j => (hperm.mem_iff).symm) r 1)

/-- Witness for C2: deleting columns `[4, 2]` of a 5-column row equals
the reference deletion, and the input order `[2, 4]` gives the same
grid. -/
theorem delete_batch_matches_reference_order_insensitive_witness :
    applyDeletes [[CellValue.str "a", CellValue.str "b", CellValue.str "c",
        CellValue.str "d", CellValue.str "e"]] [4, 2]
      = [[CellValue.str "a", CellValue.str "b", CellValue.str "c",
          CellValue.str "d", CellValue.str "e"]].map (keepFilter [4, 2] 1) ∧
    applyDeletes [[CellValue.str "a", CellValue.str "b", CellValue.str "c",
        CellValue.str "d", CellValue.str "e"]] [2, 4]
      = applyDeletes [[CellValue.str "a", CellValue.str "b", CellValue.str "c",
          CellValue.str "d", CellValue.str "e"]] [4, 2] :=
  delete_batch_matches_reference_order_insensitive
    [[CellValue.str "a", CellValue.str "b", CellValue.str "c",
      CellValue.str "d", CellValue.str "e"]] 5 [4, 2] [2, 4]
    (by decide) (by decide) (by decide) (by decide)

/-- C3: The rounding step touches exactly the first row below the
header that contains a cell whose trimmed text case-insensitively
equals `"Base"`: that row's numeric cells are rounded to the
configured decimal places, numeric strings are replaced by the rounded
number, all other cells stay as they are, every other row is
untouched, and when no such row exists the step is the identity.  The
spec's concrete instance with `decimal_places = 0` is included. -/
theorem base_row_rounding (n : ℕ) :
    (∀ pre row post, (∀ r ∈ pre, r.any isBaseCell = false) →
        row.any isBaseCell = true →
        roundBaseStep n (pre ++ row :: post) = pre ++ roundRow n row :: post) ∧
    (∀ rows, (∀ r ∈ rows, r.any isBaseCell = false) →
        roundBaseStep n rows = rows) ∧
    (∀ q, roundCell n (CellValue.num q) = CellValue.num (pyRound q n)) ∧
    (∀ s q, parsePyFloat s = some q →
        roundCell n (CellValue.str s) = CellValue.num (pyRound q n)) ∧
    (∀ s, parsePyFloat s = none →
        roundCell n (CellValue.str s) = CellValue.str s) ∧
    roundBaseStep 0 [[CellValue.str "Base", CellValue.num (mkRat 2469 200),
        CellValue.str "7.8", CellValue.str "n/a"]]
      = [[CellValue.str "Base", CellValue.num 12, CellValue.num 8,
          CellValue.str "n/a"]] := by
  refine ⟨?_, ?_, fun q => rfl, ?_, ?_, by decide⟩
  · intro pre
    induction pre with
    | nil =>
      intro row post _ hb
      simp [roundBaseStep, hb]
    | cons p pres ih =>
      intro row post hpre hb
      have hp : p.any isBaseCell = false := hpre p (List.mem_cons_self p pres)
      have hrec := ih row post (fun r hr => hpre r (List.mem_cons_of_mem _ hr)) hb
      simp [roundBaseStep, hp, hrec]
  · intro rows
    induction rows with
    | nil => intro _; rfl
    | cons r rest ih =>
      intro h
      have hr : r.any isBaseCell = false := h r (List.mem_cons_self r rest)
      simp [roundBaseStep, hr, ih (fun x hx => h x (List.mem_cons_of_mem _ hx))]
  · intro s q hq
    simp [roundCell, hq]
  · intro s hq
    simp [roundCell, hq]

/-- Witness for C3: a non-`Base` leading row is untouched while the
`Base` row `[12.345, "7.8", "n/a"]` becomes `[12, 8, "n/a"]` at zero
decimal places. -/
theorem base_row_rounding_witness :
    roundBaseStep 0 [[CellValue.str "x"],
        [CellValue.str "Base", CellValue.num (mkRat 2469 200),
         CellValue.str "7.8", CellValue.str "n/a"]]
      = [[CellValue.str "x"],
         [CellValue.str "Base", CellValue.num 12, CellValue.num 8,
          CellValue.str "n/a"]] :=
  ((base_row_rounding 0).1 [[CellValue.str "x"]]
    [CellValue.str "Base", CellValue.num (mkRat 2469 200),
     CellValue.str "7.8", CellValue.str "n/a"] []
    (by decide) (by decide)).trans (by decide)

/-- C4: On the failing export path — every header cell of the working
grid empty — the run aborts: the destination file holds exactly the
unmutated original workbook (the `shutil.copy2` copy), so no column
deletion and no partial mutation reaches the export destination; the
in-memory mutation is saved there only on the non-aborting path. -/
theorem export_abort_leaves_destination_unmutated
    (orig : Grid) (keepCols : List String) (title : String) (n : ℕ) :
    ((readHeaderValues (insertTitleRow title orig)).all (fun h => h = "") = true →
      exportRun orig keepCols title n
        = { destContent := orig, aborted := true }) ∧
    (¬ (readHeaderValues (insertTitleRow title orig)).all (fun h => h = "") = true →
      (exportRun orig keepCols title n).aborted = false) := by
  constructor
  · intro h
    simp [exportRun, h]
  · intro h
    simp [exportRun, h]

/-- Witness for C4 at a grid whose only header cells are `None` and a
blank string. -/
theorem export_abort_leaves_destination_unmutated_witness :
    exportRun [[CellValue.none, CellValue.str "  "]] ["A"] "T" 0
      = { destContent := [[CellValue.none, CellValue.str "  "]],
          aborted := true } :=
  (export_abort_leaves_destination_unmutated
    [[CellValue.none, CellValue.str "  "]] ["A"] "T" 0).1 (by decide)

/-! ## Parser lemmas -/

theorem charVal_pos (c : Char) (h : isLetterChar c = true) : 1 ≤ charVal c := by
  unfold isLetterChar at h
  unfold charVal
  simp only [Bool.or_eq_true, Bool.and_eq_true, decide_eq_true_eq] at h
  rcases h with ⟨h1, h2⟩ | ⟨h1, h2⟩ <;> split <;> omega

theorem base26_fold_ge_one :
    ∀ (ls : List Char) (acc : ℕ), 1 ≤ acc →
      1 ≤ ls.foldl (fun a c => a * 26 + charVal c) acc := by
  intro ls
  induction ls with
  | nil => intro acc h; exact h
  | cons c rest ih =>
    intro acc h
    refine ih (acc * 26 + charVal c) ?_
    have h26 : acc ≤ acc * 26 := Nat.le_mul_of_pos_right acc (by norm_num)
    omega

theorem base26_pos (ls : List Char) (hne : ls ≠ [])
    (hl : ∀ c ∈ ls, isLetterChar c = true) : 1 ≤ base26 ls := by
  match ls, hne with
  | c :: rest, _ =>
    show 1 ≤ rest.foldl (fun a c => a * 26 + charVal c) (0 * 26 + charVal c)
    apply base26_fold_ge_one
    have := charVal_pos c (hl c (List.mem_cons_self c rest))
    omega

theorem parse_eq_spec_aux :
    ∀ tok, parseCellAddressToken tok = specParseToken tok := by
  intro tok
  simp only [parseCellAddressToken, specParseToken, columnIndexFromString]
  cases hA : ((stripChars tok.data).takeWhile isLetterChar).isEmpty <;>
    cases hB : ((stripChars tok.data).dropWhile isLetterChar).isEmpty <;>
      cases hC : ((stripChars tok.data).dropWhile isLetterChar).all isDigitChar <;>
        by_cases hD : ((stripChars tok.data).takeWhile isLetterChar).length ≤ 3 <;>
          simp [hA, hB, hC, hD]

/-- C5 counterexample: `"AAAA1"` matches the claimed
letters-then-digits pattern yet the parser rejects it (the base-26
decoder only accepts up to three letters), while `" B12 "` does not
match the raw pattern yet parses to `(12, 2)` because the token is
stripped first. -/
theorem parse_token_pattern_counterexample :
    (matchesLettersDigits "AAAA1" = true ∧
      parseCellAddressToken "AAAA1" = none) ∧
    (matchesLettersDigits " B12 " = false ∧
      parseCellAddressToken " B12 " = some (12, 2)) := by
  decide

/-- C5 (amended): the parser returns a coordinate exactly when the
*stripped* token is one to *three* letters followed by one or more
digits — the result being `(digits value, base-26 letters value)` with
the letters decoded case-insensitively — and every other token yields
the explicit failure `none`; in particular `"B12"` and `"b12"` both
give `(12, 2)`. -/
theorem parse_token_amended_contract :
    (∀ tok, parseCellAddressToken tok = specParseToken tok) ∧
    parseCellAddressToken "B12" = some (12, 2) ∧
    parseCellAddressToken "b12" = some (12, 2) :=
  ⟨parse_eq_spec_aux, by decide, by decide⟩

/-- C10 counterexample: token `"A0"` parses successfully to
`(row, column) = (0, 1)`, whose row component is not `≥ 1`. -/
theorem parse_token_row_zero_counterexample :
    parseCellAddressToken "A0" = some (0, 1) ∧ ¬ (1 ≤ (0 : ℤ)) := by
  decide

/-- C10 (amended): every coordinate a successful parse produces has
column `≥ 1`, while the row — the digit group's value — is only
guaranteed `≥ 0` (an all-zero digit group yields row `0`). -/
theorem parse_token_coordinate_bounds :
    ∀ tok (r c : ℤ), parseCellAddressToken tok = some (r, c) →
      0 ≤ r ∧ 1 ≤ c := by
  intro tok r c h
  rw [parse_eq_spec_aux] at h
  simp only [specParseToken] at h
  split at h
  · rename_i hcond
    rw [Option.some.injEq] at h
    have hr : (digitsToNat ((stripChars tok.toList).dropWhile isLetterChar) : ℤ) = r :=
      congrArg Prod.fst h
    have hc : (base26 ((stripChars tok.toList).takeWhile isLetterChar) : ℤ) = c :=
      congrArg Prod.snd h
    constructor
    · rw [← hr]
      exact Int.ofNat_nonneg _
    · rw [← hc]
      have hb : 1 ≤ base26 ((stripChars tok.toList).takeWhile isLetterChar) := by
        apply base26_pos
        · intro hx
          rw [hx] at hcond
          simp at hcond
        · intro x hx
          exact List.mem_takeWhile_imp hx
      exact_mod_cast hb
  · cases h

/-- Witness for the amended C10 at token `"B12"`. -/
theorem parse_token_coordinate_bounds_witness :
    parseCellAddressToken "B12" = some (12, 2) ∧
    (0 ≤ (12 : ℤ) ∧ 1 ≤ (2 : ℤ)) :=
  ⟨by decide, parse_token_coordinate_bounds "B12" 12 2 (by decide)⟩

/-- C6 counterexample: in a row whose `row` alias column holds the
address-shaped string `"B12"` (not a number) while another column
holds `"C3"`, the code's rule-3 scan walks *every* dataframe column in
order and parses the alias column's value, yielding `(12, 2)`; the
claimed scan of only the *remaining* (non-alias) columns would yield
`(3, 3)`. -/
theorem highlight_rule3_scan_counterexample :
    resolveRow ["row", "note"] [("row", some "B12"), ("note", some "C3")]
      = some (12, 2) ∧
    resolveRowSpec ["row", "note"] [("row", some "B12"), ("note", some "C3")]
      = some (3, 3) ∧
    resolveRow ["row", "note"] [("row", some "B12"), ("note", some "C3")]
      ≠ resolveRowSpec ["row", "note"] [("row", some "B12"), ("note", some "C3")] := by
  decide

/-- C6 (amended): per-row resolution tries the rules in order with the
first success winning — (1) the explicit `cell` then `address` column,
(2) numeric row/column aliases with the 0-based heuristic, (3) a scan
of *every* dataframe column in order, the alias columns included — and
a row that no rule resolves is silently dropped: it contributes
nothing to the built highlight index. -/
theorem highlight_resolution_order (columns : List String) :
    (∀ row p, rule1 columns row = some p → resolveRow columns row = some p) ∧
    (∀ row (r c : ℤ), rule1 columns row = none →
        firstIntAlias columns row rowAliases = some r →
        firstIntAlias columns row colAliases = some c →
        resolveRow columns row
          = if 1 ≤ r ∧ 1 ≤ c then some (r, c) else some (r + 1, c + 1)) ∧
    (∀ row, rule1 columns row = none →
        (firstIntAlias columns row rowAliases = none ∨
         firstIntAlias columns row colAliases = none) →
        resolveRow columns row = scanCols row columns) ∧
    (∀ pre row post, resolveRow columns row = none →
        buildHighlightIndex columns (pre ++ row :: post)
          = buildHighlightIndex columns (pre ++ post)) := by
  refine ⟨?_, ?_, ?_, ?_⟩
  · intro row p h
    simp [resolveRow, h]
  · intro row r c h1 hr hc
    simp [resolveRow, h1, hr, hc]
  · intro row h1 h2
    rcases h2 with h2 | h2
    · simp [resolveRow, h1, h2]
    · cases hx : firstIntAlias columns row rowAliases <;>
        simp [resolveRow, h1, hx, h2]
  · intro pre row post h
    unfold buildHighlightIndex
    rw [List.foldl_append, List.foldl_append, List.foldl_cons, h]

/-- Witness for the amended C6: rule 1 resolving an explicit `cell`
column short-circuits the whole row resolution. -/
theorem highlight_resolution_order_witness :
    resolveRow ["cell", "row"] [("cell", some "B12"), ("row", some "9")]
      = some (12, 2) :=
  (highlight_resolution_order ["cell", "row"]).1
    [("cell", some "B12"), ("row", some "9")] (12, 2) (by decide)

/-- C7: when rule 2 resolves a row, a pair with both components `≥ 1`
is recorded unchanged, and a pair with either component `< 1` is
recorded as `(row + 1, column + 1)`; raw `(0, 0)` becomes `(1, 1)`. -/
theorem rule2_zero_based_normalization :
    (∀ columns row (r c : ℤ), rule1 columns row = none →
        firstIntAlias columns row rowAliases = some r →
        firstIntAlias columns row colAliases = some c →
        ((1 ≤ r ∧ 1 ≤ c → resolveRow columns row = some (r, c)) ∧
         (¬ (1 ≤ r ∧ 1 ≤ c) →
            resolveRow columns row = some (r + 1, c + 1)))) ∧
    resolveRow ["row", "col"] [("row", some "0"), ("col", some "0")]
      = some (1, 1) := by
  refine ⟨?_, by decide⟩
  intro columns row r c h1 hr hc
  constructor
  · intro hge
    simp [resolveRow, h1, hr, hc, hge]
  · intro hlt
    simp [resolveRow, h1, hr, hc, hlt]

/-- Witness for C7 on an already-1-based pair. -/
theorem rule2_zero_based_normalization_witness :
    resolveRow ["row", "col"] [("row", some "3"), ("col", some "4")]
      = some (3, 4) :=
  ((rule2_zero_based_normalization.1 ["row", "col"]
    [("row", some "3"), ("col", some "4")] 3 4
    (by decide) (by decide) (by decide)).1 (by decide))

/-- C8: the coordinate-space mapper sends `(excel_row, excel_col)` to
`(excel_row − 2, excel_col − 1)` with a header and
`(excel_row − 1, excel_col − 1)` without one, and its output contains
exactly the mapped pairs whose two components are non-negative; the
spec's concrete instances are included. -/
theorem coordinate_space_mapping (coords : List (ℤ × ℤ)) (hp : Bool) :
    (∀ q : ℤ × ℤ, q ∈ excelCoordsToDfIndices coords hp ↔
      ∃ p ∈ coords,
        q = ((if hp then p.1 - 2 else p.1 - 1), p.2 - 1) ∧ 0 ≤ q.1 ∧ 0 ≤ q.2) ∧
    excelCoordsToDfIndices [(2, 1)] true = [(0, 0)] ∧
    excelCoordsToDfIndices [(1, 1)] false = [(0, 0)] ∧
    excelCoordsToDfIndices [(1, 1), (5, 3)] true = [(3, 2)] := by
  refine ⟨?_, by decide, by decide, by decide⟩
  intro q
  unfold excelCoordsToDfIndices
  rw [List.mem_filterMap]
  constructor
  · rintro ⟨p, hpmem, hpeq⟩
    simp only at hpeq
    by_cases hc : 0 ≤ (if hp then p.1 - 2 else p.1 - 1) ∧ 0 ≤ p.2 - 1
    · rw [if_pos hc, Option.some.injEq] at hpeq
      exact ⟨p, hpmem, hpeq.symm, by rw [← hpeq]; exact hc.1,
        by rw [← hpeq]; exact hc.2⟩
    · rw [if_neg hc] at hpeq
      cases hpeq
  · rintro ⟨p, hpmem, hq, h1, h2⟩
    refine ⟨p, hpmem, ?_⟩
    simp only
    rw [if_pos, Option.some.injEq]
    · exact hq.symm
    · subst hq
      exact ⟨h1, h2⟩

/-- C9: a cell present in the green coordinate set is styled green —
also when it is simultaneously in the red set (the red check sits in
the `elif`); a cell only in the red set is styled red; a cell in
neither set gets no highlight style. -/
theorem renderer_green_wins (green red : List (ℤ × ℤ)) (rc : ℤ × ℤ) :
    (rc ∈ green → cellHighlightStyle green red rc = "background:#C6EFCE;") ∧
    (rc ∉ green → rc ∈ red →
      cellHighlightStyle green red rc = "background:#FFC7CE;") ∧
    (rc ∉ green → rc ∉ red → cellHighlightStyle green red rc = "") := by
  refine ⟨?_, ?_, ?_⟩
  · intro h
    simp [cellHighlightStyle, h]
  · intro h1 h2
    simp [cellHighlightStyle, h1, h2]
  · intro h1 h2
    simp [cellHighlightStyle, h1, h2]

/-- Witness for C9: coordinate `(0, 0)` in both sets renders green. -/
theorem renderer_green_wins_witness :
    cellHighlightStyle [((0 : ℤ), (0 : ℤ))] [((0 : ℤ), (0 : ℤ))] (0, 0)
      = "background:#C6EFCE;" :=
  (renderer_green_wins [(0, 0)] [(0, 0)] (0, 0)).1 (by decide)

end SigTest
